import Mathlib

/-!
Verification of the Plasma TypeScript SDK instruction codec layer.

Source under scrutiny:
* `src/unnamed/part_000` — the generated `AddLiquidity` instruction
  builder (TypeScript), lines 81-144.
* `src/sdk/typescript/generated/programId.ts` — the `PROGRAM_ID` constant.

The builder delegates parameter serialization to a borsh layout engine
(the external `@coral-xyz/borsh` collaborator) applied to the schema
`types.AddLiquidityIxParams.layout`, whose concrete field list lives in a
generated types file of this repository that is not part of the visible
sources.  Following the specification, the layout engine is embedded here
as an inductive `Layout` of binary primitives with executable
`encode`/`decode` functions, and every statement about the builder is
quantified over the (unknown) params layout.

Bytes are modelled as `Nat` (with validity `< 256`); buffers as
`List Nat`; fallible operations return `Option` or `Except String`.
-/

namespace Plasma

/-- Little-endian encoding of a natural number into `w` bytes, the
convention of the wire format (spec section 6). -/
def encodeUIntLE : Nat → Nat → List Nat
  | 0, _ => []
  | w + 1, v => (v % 256) :: encodeUIntLE w (v / 256)

/-- Little-endian decoding of `w` bytes from the front of a buffer,
returning the value and the remaining bytes. -/
def decodeUIntLE : Nat → List Nat → Option (Nat × List Nat)
  | 0, bs => some (0, bs)
  | _ + 1, [] => none
  | w + 1, b :: bs => (decodeUIntLE w bs).map (fun p => (b % 256 + 256 * p.1, p.2))

/-- Binary layout primitives of the layout library, after spec section 4.1:
fixed-width unsigned and signed integers (little endian), booleans,
fixed-length byte arrays, length-prefixed byte sequences, option-wrapped
values with a one-byte presence tag, nested records, and sequences of a
sub-layout with a u32 count. -/
inductive Layout where
  | uint (w : Nat)
  | sint (w : Nat)
  | boolean
  | fixedBytes (n : Nat)
  | byteVec
  | option (l : Layout)
  | struct (fields : List (String × Layout))
  | vec (l : Layout)

/-- Structured values a layout can encode (the ParameterRecord side of a
TypeSchema, spec section 3). -/
inductive Value where
  | uint (v : Nat)
  | int (i : Int)
  | boolean (b : Bool)
  | bytes (bs : List Nat)
  | opt (o : Option Value)
  | struct (fields : List (String × Value))
  | vec (vs : List Value)

/-- Two-complement image of a signed value in `w` bytes. -/
def toTwos (w : Nat) (i : Int) : Nat :=
  if 0 ≤ i then i.toNat else (i + (256 : Int) ^ w).toNat

/-- Signed reading of an unsigned `w`-byte value. -/
def fromTwos (w : Nat) (n : Nat) : Int :=
  if (n : Int) < (256 : Int) ^ w / 2 then (n : Int) else (n : Int) - (256 : Int) ^ w

mutual

/-- Canonical borsh-style encoder: returns the exact-length byte string of
a value under a layout, or `none` (an EncodingError, spec section 7) when
the value is incompatible with the primitive — wrong shape, an integer
outside its declared bit width, a byte array of the wrong length, a
sequence too long for its u32 count. -/
def encode : Layout → Value → Option (List Nat)
  | .uint w, .uint v => if v < 256 ^ w then some (encodeUIntLE w v) else none
  | .sint w, .int i =>
    if -((256 : Int) ^ w / 2) ≤ i ∧ i < (256 : Int) ^ w / 2 then
      some (encodeUIntLE w (toTwos w i))
    else none
  | .boolean, .boolean b => some [if b then 1 else 0]
  | .fixedBytes n, .bytes bs =>
    if bs.length = n ∧ bs.all (· < 256) then some bs else none
  | .byteVec, .bytes bs =>
    if bs.length < 256 ^ 4 ∧ bs.all (· < 256) then
      some (encodeUIntLE 4 bs.length ++ bs)
    else none
  | .option _, .opt Option.none => some [0]
  | .option l, .opt (Option.some v) => (encode l v).map (1 :: ·)
  | .struct fs, .struct vs => encodeFields fs vs
  | .vec l, .vec vs =>
    if vs.length < 256 ^ 4 then
      (encodeElems l vs).map (encodeUIntLE 4 vs.length ++ ·)
    else none
  | _, _ => none
termination_by _ v => sizeOf v

/-- Encoder of a record body: fields are laid out in declaration order
with no padding, and the record must carry exactly the declared fields. -/
def encodeFields : List (String × Layout) → List (String × Value) → Option (List Nat)
  | [], [] => some []
  | (n, l) :: fs, (m, v) :: vs =>
    if n = m then
      (encode l v).bind (fun b => (encodeFields fs vs).map (fun bs => b ++ bs))
    else none
  | _, _ => none
termination_by _ vs => sizeOf vs

/-- Encoder of the elements of a sequence, concatenated in order. -/
def encodeElems : Layout → List Value → Option (List Nat)
  | _, [] => some []
  | l, v :: vs =>
    (encode l v).bind (fun b => (encodeElems l vs).map (fun bs => b ++ bs))
termination_by _ vs => sizeOf vs

end

mutual

/-- Canonical decoder: reads one value of the given layout from the front
of the buffer, returning the value and the remaining bytes, or `none` (a
DecodingError, spec section 7) when the buffer is truncated or a tag byte
does not name a known variant. -/
def decode : Layout → List Nat → Option (Value × List Nat)
  | .uint w, bs => (decodeUIntLE w bs).map (fun p => (.uint p.1, p.2))
  | .sint w, bs => (decodeUIntLE w bs).map (fun p => (.int (fromTwos w p.1), p.2))
  | .boolean, [] => none
  | .boolean, b :: bs =>
    if b = 1 then some (.boolean true, bs)
    else if b = 0 then some (.boolean false, bs)
    else none
  | .fixedBytes n, bs =>
    if n ≤ bs.length then some (.bytes (bs.take n), bs.drop n) else none
  | .byteVec, bs =>
    match decodeUIntLE 4 bs with
    | none => none
    | some (len, r) =>
      if len ≤ r.length then some (.bytes (r.take len), r.drop len) else none
  | .option _, [] => none
  | .option l, t :: bs =>
    if t = 0 then some (.opt Option.none, bs)
    else if t = 1 then (decode l bs).map (fun p => (.opt (Option.some p.1), p.2))
    else none
  | .struct fs, bs => (decodeFields fs bs).map (fun p => (.struct p.1, p.2))
  | .vec l, bs =>
    match decodeUIntLE 4 bs with
    | none => none
    | some (len, r) => (decodeElems l len r).map (fun p => (.vec p.1, p.2))
termination_by l _ => (sizeOf l, 0)

/-- Decoder of a record body, field by field in declaration order. -/
def decodeFields : List (String × Layout) → List Nat → Option (List (String × Value) × List Nat)
  | [], bs => some ([], bs)
  | (n, l) :: fs, bs =>
    match decode l bs with
    | none => none
    | some (v, r) => (decodeFields fs r).map (fun p => ((n, v) :: p.1, p.2))
termination_by fs _ => (sizeOf fs, 0)

/-- Decoder of `k` consecutive elements of a sequence. -/
def decodeElems : Layout → Nat → List Nat → Option (List Value × List Nat)
  | _, 0, bs => some ([], bs)
  | l, k + 1, bs =>
    match decode l bs with
    | none => none
    | some (v, r) => (decodeElems l k r).map (fun p => (v :: p.1, p.2))
termination_by l k _ => (sizeOf l, k + 1)

end

mutual

/-- Validity of a value under a layout (the ParameterRecord conformance
relation of spec section 3: right shape, integers in range, byte arrays of
the declared length, records carrying exactly the declared fields in
declaration order). -/
def valid : Layout → Value → Bool
  | .uint w, .uint v => decide (v < 256 ^ w)
  | .sint w, .int i =>
    decide (-((256 : Int) ^ w / 2) ≤ i) && decide (i < (256 : Int) ^ w / 2)
  | .boolean, .boolean _ => true
  | .fixedBytes n, .bytes bs => decide (bs.length = n) && bs.all (· < 256)
  | .byteVec, .bytes bs => decide (bs.length < 256 ^ 4) && bs.all (· < 256)
  | .option _, .opt Option.none => true
  | .option l, .opt (Option.some v) => valid l v
  | .struct fs, .struct vs => validFields fs vs
  | .vec l, .vec vs => decide (vs.length < 256 ^ 4) && validElems l vs
  | _, _ => false
termination_by _ v => sizeOf v

/-- Validity of a record body: exactly the declared field names, in
order, each value valid under its field layout. -/
def validFields : List (String × Layout) → List (String × Value) → Bool
  | [], [] => true
  | (n, l) :: fs, (m, v) :: vs => decide (n = m) && valid l v && validFields fs vs
  | _, _ => false
termination_by _ vs => sizeOf vs

/-- Validity of every element of a sequence. -/
def validElems : Layout → List Value → Bool
  | _, [] => true
  | l, v :: vs => valid l v && validElems l vs
termination_by _ vs => sizeOf vs

end

/-- Addresses of the external execution environment, identified by their
base58 text (the web3 PublicKey collaborator). -/
structure PublicKey where
  toBase58 : String
  deriving DecidableEq, Repr

/-- Program ID defined in the provided IDL
(src/sdk/typescript/generated/programId.ts line 4). -/
def PROGRAM_ID_IDL : PublicKey :=
  { toBase58 := "srAMMzfVHVAtgSJc8iH6CfKzuWuUTzLHVCE81QU1rgi" }

/-- Default target program of every builder
(src/sdk/typescript/generated/programId.ts line 9). -/
def PROGRAM_ID : PublicKey := PROGRAM_ID_IDL

/-- Account reference consumed positionally by the external program: an
address tagged with signer/writable flags (spec section 6). -/
structure AccountMeta where
  pubkey : PublicKey
  isSigner : Bool
  isWritable : Bool
  deriving DecidableEq, Repr

/-- The opaque instruction object handed to the external
transaction-assembly component: ordered account metas, target program,
binary payload. -/
structure TransactionInstruction where
  keys : List AccountMeta
  programId : PublicKey
  data : List Nat
  deriving DecidableEq, Repr

/-- Arguments record of the builder (src/unnamed/part_000 lines 87-89):
the params record is a structured value of the AddLiquidityIxParams
schema; `toEncodable` of the source is the identity at this level of
abstraction. -/
structure AddLiquidityArgs where
  params : Value

/-- Accounts record of the builder (src/unnamed/part_000 lines 91-110):
one address per role, every role mandatory. -/
structure AddLiquidityAccounts where
  plasmaProgram : PublicKey
  logAuthority : PublicKey
  pool : PublicKey
  trader : PublicKey
  lpPosition : PublicKey
  baseAccount : PublicKey
  quoteAccount : PublicKey
  baseVault : PublicKey
  quoteVault : PublicKey
  tokenProgram : PublicKey
  deriving DecidableEq, Repr

/-- Modelled from the spec: the concrete field list of the schema
`types.AddLiquidityIxParams.layout` lives in a generated types file of the
repository that is not among the visible sources, so it is kept as a
parameter `paramsLayout`; following src/unnamed/part_000 lines 112-114,
the instruction layout wraps it in a single-field record under the name
"params". -/
def layout (paramsLayout : Layout) : Layout :=
  .struct [("params", paramsLayout)]

/-- Model of the layout-library call `layout.encode(src, buffer)` used at
src/unnamed/part_000 lines 135-140: writes the encoding at offset 0 of the
caller-allocated buffer, returns the number of bytes written together with
the written buffer, and leaves the buffer tail intact; it raises when the
value does not fit the schema (EncodingError) or would overrun the buffer
(RangeError). -/
def bufferEncode (l : Layout) (v : Value) (buffer : List Nat) :
    Except String (Nat × List Nat) :=
  match encode l v with
  | Option.none => .error "EncodingError"
  | Option.some bs =>
    if bs.length ≤ buffer.length then .ok (bs.length, bs ++ buffer.drop bs.length)
    else .error "RangeError"

/-- Account metas of the AddLiquidity instruction exactly as listed at
src/unnamed/part_000 lines 121-132. -/
def addLiquidityKeys (accounts : AddLiquidityAccounts) : List AccountMeta :=
  [ { pubkey := accounts.plasmaProgram, isSigner := false, isWritable := false },
    { pubkey := accounts.logAuthority, isSigner := false, isWritable := false },
    { pubkey := accounts.pool, isSigner := false, isWritable := true },
    { pubkey := accounts.trader, isSigner := true, isWritable := false },
    { pubkey := accounts.lpPosition, isSigner := false, isWritable := true },
    { pubkey := accounts.baseAccount, isSigner := false, isWritable := true },
    { pubkey := accounts.quoteAccount, isSigner := false, isWritable := true },
    { pubkey := accounts.baseVault, isSigner := false, isWritable := true },
    { pubkey := accounts.quoteVault, isSigner := false, isWritable := true },
    { pubkey := accounts.tokenProgram, isSigner := false, isWritable := false } ]

/-- Body of the AddLiquidity builder (src/unnamed/part_000 lines 116-144)
with the scratch buffer made an explicit argument: builds the fixed meta
list, encodes the params record into the scratch, and concatenates the
one-byte discriminator `[1]` with the scratch before truncating to
`1 + len` bytes, exactly as `Buffer.concat([identifier, buffer]).slice(0,
1 + len)` does. -/
def AddLiquidityCore (scratch : List Nat) (paramsLayout : Layout)
    (args : AddLiquidityArgs) (accounts : AddLiquidityAccounts)
    (programId : PublicKey) : Except String TransactionInstruction :=
  let keys := addLiquidityKeys accounts
  let identifier : List Nat := [1]
  match bufferEncode (layout paramsLayout)
      (Value.struct [("params", args.params)]) scratch with
  | .error e => .error e
  | .ok (len, buffer) =>
    .ok { keys := keys, programId := programId,
          data := (identifier ++ buffer).take (1 + len) }

/-- The AddLiquidity instruction builder (src/unnamed/part_000 lines
116-144): its scratch buffer is the fresh 1000-byte `Buffer.alloc(1000)`
of line 134, and the target program defaults to `PROGRAM_ID` as in the
signature of line 119. -/
def AddLiquidity (paramsLayout : Layout) (args : AddLiquidityArgs)
    (accounts : AddLiquidityAccounts)
    (programId : PublicKey := PROGRAM_ID) : Except String TransactionInstruction :=
  AddLiquidityCore (List.replicate 1000 0) paramsLayout args accounts programId

/-- Account reference template of the AddLiquidity action: role names in
declaration order with their fixed signer/writable flags, transcribed from
src/unnamed/part_000 lines 91-110 and 121-132. -/
def addLiquidityTemplate : List (String × Bool × Bool) :=
  [ ("plasmaProgram", false, false),
    ("logAuthority", false, false),
    ("pool", false, true),
    ("trader", true, false),
    ("lpPosition", false, true),
    ("baseAccount", false, true),
    ("quoteAccount", false, true),
    ("baseVault", false, true),
    ("quoteVault", false, true),
    ("tokenProgram", false, false) ]

/-- Error value naming the absent role (spec section 7 requires errors to
name the offending role). -/
def missingAccountError (role : String) : String :=
  "MissingAccountError: " ++ role

/-- Modelled from the spec: the Account Reference Resolver of spec section
4.4 is not among the visible sources — in the generated code its
completeness check is carried by the TypeScript type of the accounts
record. `resolve` validates that the binding supplies every role of the
template, failing with `MissingAccountError` naming the first absent role,
and orders the metas in template declaration order with the template
flags. -/
def resolve (template : List (String × Bool × Bool))
    (binding : String → Option PublicKey) : Except String (List AccountMeta) :=
  match template with
  | [] => .ok []
  | (role, s, w) :: rest =>
    match binding role with
    | Option.none => .error (missingAccountError role)
    | Option.some pk =>
      match resolve rest binding with
      | .error e => .error e
      | .ok metas => .ok ({ pubkey := pk, isSigner := s, isWritable := w } :: metas)

/-- Role-indexed view of a complete accounts record, for relating the
builder to the resolver model. -/
def bindingOf (accounts : AddLiquidityAccounts) : String → Option PublicKey :=
  fun role =>
    if role = "plasmaProgram" then Option.some accounts.plasmaProgram
    else if role = "logAuthority" then Option.some accounts.logAuthority
    else if role = "pool" then Option.some accounts.pool
    else if role = "trader" then Option.some accounts.trader
    else if role = "lpPosition" then Option.some accounts.lpPosition
    else if role = "baseAccount" then Option.some accounts.baseAccount
    else if role = "quoteAccount" then Option.some accounts.quoteAccount
    else if role = "baseVault" then Option.some accounts.baseVault
    else if role = "quoteVault" then Option.some accounts.quoteVault
    else if role = "tokenProgram" then Option.some accounts.tokenProgram
    else Option.none

/-- Concrete accounts record used to exercise the builder. -/
def sampleAccounts : AddLiquidityAccounts :=
  { plasmaProgram := { toBase58 := "p1" }
    logAuthority := { toBase58 := "p2" }
    pool := { toBase58 := "p3" }
    trader := { toBase58 := "p4" }
    lpPosition := { toBase58 := "p5" }
    baseAccount := { toBase58 := "p6" }
    quoteAccount := { toBase58 := "p7" }
    baseVault := { toBase58 := "p8" }
    quoteVault := { toBase58 := "p9" }
    tokenProgram := { toBase58 := "p10" } }

/-- Concrete args record whose params value fits the one-byte schema
`Layout.uint 1`. -/
def sampleArgs : AddLiquidityArgs := { params := Value.uint 42 }

/-- Concrete args record whose params value is a 1001-byte array, larger
than the 1000-byte scratch buffer. -/
def oversizeArgs : AddLiquidityArgs := { params := Value.bytes (List.replicate 1001 7) }

/-- Alternate deployment address used to exercise the programId override. -/
def samplePid : PublicKey := { toBase58 := "altDeployment" }

/-- Concrete TypeSchema exercising integers, signed integers, booleans
and option-wrapped values. -/
def sampleLayout : Layout :=
  .struct [("price", .uint 2), ("delta", .sint 1), ("live", .boolean),
           ("cap", .option (.uint 1))]

/-- Concrete parameter record valid under `sampleLayout`. -/
def sampleValue : Value :=
  .struct [("price", .uint 300), ("delta", .int (-3)), ("live", .boolean true),
           ("cap", .opt (Option.some (.uint 9)))]

/-- Binding that supplies every role except quoteVault. -/
def missingBinding : String → Option PublicKey :=
  fun role =>
    if role = "quoteVault" then Option.none else bindingOf sampleAccounts role

theorem encodeUIntLE_length (w v : Nat) : (encodeUIntLE w v).length = w := by
  induction w generalizing v with
  | zero => rfl
  | succ w ih => simp [encodeUIntLE, ih]

theorem decodeUIntLE_encodeUIntLE (w v : Nat) (hv : v < 256 ^ w) (rest : List Nat) :
    decodeUIntLE w (encodeUIntLE w v ++ rest) = some (v, rest) := by
  induction w generalizing v with
  | zero =>
    have : v = 0 := by simpa [pow_zero] using hv
    simp [encodeUIntLE, decodeUIntLE, this]
  | succ w ih =>
    have hdiv : v / 256 < 256 ^ w := by
      rw [Nat.div_lt_iff_lt_mul (by norm_num : 0 < 256)]
      calc v < 256 ^ (w + 1) := hv
        _ = 256 ^ w * 256 := by ring
    simp [encodeUIntLE, decodeUIntLE, ih _ hdiv]
    omega

theorem toTwos_lt (w : Nat) (i : Int)
    (hlo : -((256 : Int) ^ w / 2) ≤ i) (hhi : i < (256 : Int) ^ w / 2) :
    toTwos w i < 256 ^ w := by
  cases w with
  | zero => simp at hlo hhi; omega
  | succ w =>
    have hev : (256 : Int) ^ (w + 1) = 2 * (128 * (256 : Int) ^ w) := by ring
    have hpos : (0 : Int) < (256 : Int) ^ w := by positivity
    have hcast : ((256 ^ (w + 1) : Nat) : Int) = (256 : Int) ^ (w + 1) := by
      push_cast; ring
    unfold toTwos
    split <;> omega

theorem fromTwos_toTwos (w : Nat) (i : Int)
    (hlo : -((256 : Int) ^ w / 2) ≤ i) (hhi : i < (256 : Int) ^ w / 2) :
    fromTwos w (toTwos w i) = i := by
  cases w with
  | zero => simp at hlo hhi; omega
  | succ w =>
    have hev : (256 : Int) ^ (w + 1) = 2 * (128 * (256 : Int) ^ w) := by ring
    have hpos : (0 : Int) < (256 : Int) ^ w := by positivity
    unfold toTwos fromTwos
    split <;> split <;> omega

/-- Joint induction core for the round-trip property: values, record
bodies and sequence elements bounded in size by `N` decode back to
themselves after encoding. -/
theorem encode_decode_aux : ∀ N : Nat,
    (∀ l v bs, sizeOf v ≤ N → encode l v = some bs →
      ∀ rest, decode l (bs ++ rest) = some (v, rest)) ∧
    (∀ fs vs bs, sizeOf vs ≤ N → encodeFields fs vs = some bs →
      ∀ rest, decodeFields fs (bs ++ rest) = some (vs, rest)) ∧
    (∀ l vs bs, sizeOf vs ≤ N → encodeElems l vs = some bs →
      ∀ rest, decodeElems l vs.length (bs ++ rest) = some (vs, rest)) := by
  intro N
  induction N using Nat.strong_induction_on with
  | _ N ih =>
    refine ⟨?_, ?_, ?_⟩
    · intro l v bs hN h rest
      cases l with
      | uint w =>
        cases v <;> simp [encode] at h
        case uint v1 =>
          obtain ⟨hv, hbs⟩ := h
          subst hbs
          simp [decode, decodeUIntLE_encodeUIntLE w v1 hv rest]
      | sint w =>
        cases v <;> simp [encode] at h
        case int i =>
          obtain ⟨⟨hlo, hhi⟩, hbs⟩ := h
          subst hbs
          simp [decode,
            decodeUIntLE_encodeUIntLE w (toTwos w i) (toTwos_lt w i hlo hhi) rest,
            fromTwos_toTwos w i hlo hhi]
      | boolean =>
        cases v <;> simp [encode] at h
        case boolean b =>
          subst h
          cases b <;> simp [decode]
      | fixedBytes n =>
        cases v <;> simp [encode] at h
        case bytes bsv =>
          obtain ⟨⟨hlen, _⟩, hbs⟩ := h
          subst hbs
          subst hlen
          simp [decode, List.take_left, List.drop_left]
      | byteVec =>
        cases v <;> simp [encode] at h
        case bytes bsv =>
          obtain ⟨⟨hlen, _⟩, hbs⟩ := h
          subst hbs
          rw [List.append_assoc]
          simp [decode, decodeUIntLE_encodeUIntLE 4 bsv.length hlen,
            List.take_left, List.drop_left]
      | option l =>
        cases v
        case opt o =>
          cases o with
          | none =>
            simp [encode] at h
            subst h
            simp [decode]
          | some v1 =>
            simp [encode] at h
            obtain ⟨b, hb, hbs⟩ := h
            subst hbs
            have hlt : sizeOf v1 < N := by simp at hN; omega
            simp [decode, (ih (sizeOf v1) hlt).1 l v1 b le_rfl hb rest]
        all_goals simp [encode] at h
      | struct fs =>
        cases v <;> simp [encode] at h
        case struct vs =>
          have hlt : sizeOf vs < N := by simp at hN; omega
          simp [decode, (ih (sizeOf vs) hlt).2.1 fs vs bs le_rfl h rest]
      | vec l =>
        cases v <;> simp [encode] at h
        case vec vs =>
          obtain ⟨hlen, b, hb, hbs⟩ := h
          subst hbs
          rw [List.append_assoc]
          have hlt : sizeOf vs < N := by simp at hN; omega
          simp [decode, decodeUIntLE_encodeUIntLE 4 vs.length hlen,
            (ih (sizeOf vs) hlt).2.2 l vs b le_rfl hb rest]
    · intro fs vs bs hN h rest
      cases fs with
      | nil =>
        cases vs <;> simp [encodeFields] at h
        subst h
        simp [decodeFields]
      | cons f fs =>
        obtain ⟨n, l⟩ := f
        cases vs with
        | nil => simp [encodeFields] at h
        | cons p vs =>
          obtain ⟨m, v⟩ := p
          simp [encodeFields, Option.bind_eq_some, Option.map_eq_some'] at h
          obtain ⟨hnm, b, hb, bs2, hbs2, hbs⟩ := h
          subst hnm
          subst hbs
          rw [List.append_assoc]
          have hltv : sizeOf v < N := by simp at hN; omega
          have hlts : sizeOf vs < N := by simp at hN; omega
          simp [decodeFields, (ih (sizeOf v) hltv).1 l v b le_rfl hb,
            (ih (sizeOf vs) hlts).2.1 fs vs bs2 le_rfl hbs2 rest]
    · intro l vs bs hN h rest
      cases vs with
      | nil =>
        simp [encodeElems] at h
        subst h
        simp [decodeElems]
      | cons v vs =>
        simp [encodeElems, Option.bind_eq_some, Option.map_eq_some'] at h
        obtain ⟨b, hb, bs2, hbs2, hbs⟩ := h
        subst hbs
        rw [List.append_assoc]
        have hltv : sizeOf v < N := by simp at hN; omega
        have hlts : sizeOf vs < N := by simp at hN; omega
        simp [decodeElems, (ih (sizeOf v) hltv).1 l v b le_rfl hb,
          (ih (sizeOf vs) hlts).2.2 l vs bs2 le_rfl hbs2 rest]

/-- Decoding inverts encoding: any byte string the encoder produces is
read back as the original value, leaving the rest of the buffer intact. -/
theorem encode_decode (l : Layout) (v : Value) (bs : List Nat)
    (h : encode l v = some bs) (rest : List Nat) :
    decode l (bs ++ rest) = some (v, rest) :=
  (encode_decode_aux (sizeOf v)).1 l v bs le_rfl h rest

/-- Joint induction core for totality of the encoder on valid values. -/
theorem valid_encode_aux : ∀ N : Nat,
    (∀ l v, sizeOf v ≤ N → valid l v = true → ∃ bs, encode l v = some bs) ∧
    (∀ fs vs, sizeOf vs ≤ N → validFields fs vs = true →
      ∃ bs, encodeFields fs vs = some bs) ∧
    (∀ l vs, sizeOf vs ≤ N → validElems l vs = true →
      ∃ bs, encodeElems l vs = some bs) := by
  intro N
  induction N using Nat.strong_induction_on with
  | _ N ih =>
    refine ⟨?_, ?_, ?_⟩
    · intro l v hN h
      cases l with
      | uint w =>
        cases v <;> simp [valid] at h
        case uint v1 => exact ⟨encodeUIntLE w v1, by simp [encode, h]⟩
      | sint w =>
        cases v <;> simp [valid] at h
        case int i => exact ⟨encodeUIntLE w (toTwos w i), by simp [encode, h.1, h.2]⟩
      | boolean =>
        cases v <;> simp [valid] at h
        case boolean b => exact ⟨[if b then 1 else 0], by simp [encode]⟩
      | fixedBytes n =>
        cases v <;> simp [valid] at h
        case bytes bsv => exact ⟨bsv, by simp [encode, h.1, List.all_eq_true]; exact h.2⟩
      | byteVec =>
        cases v <;> simp [valid] at h
        case bytes bsv =>
          exact ⟨encodeUIntLE 4 bsv.length ++ bsv, by simp [encode, h.1, List.all_eq_true]; exact h.2⟩
      | option l =>
        cases v
        case opt o =>
          cases o with
          | none => exact ⟨[0], by simp [encode]⟩
          | some v1 =>
            simp [valid] at h
            have hlt : sizeOf v1 < N := by simp at hN; omega
            obtain ⟨b, hb⟩ := (ih (sizeOf v1) hlt).1 l v1 le_rfl h
            exact ⟨1 :: b, by simp [encode, hb]⟩
        all_goals simp [valid] at h
      | struct fs =>
        cases v <;> simp [valid] at h
        case struct vs =>
          have hlt : sizeOf vs < N := by simp at hN; omega
          obtain ⟨b, hb⟩ := (ih (sizeOf vs) hlt).2.1 fs vs le_rfl h
          exact ⟨b, by simp [encode, hb]⟩
      | vec l =>
        cases v <;> simp [valid] at h
        case vec vs =>
          have hlt : sizeOf vs < N := by simp at hN; omega
          obtain ⟨b, hb⟩ := (ih (sizeOf vs) hlt).2.2 l vs le_rfl h.2
          exact ⟨encodeUIntLE 4 vs.length ++ b, by simp [encode, h.1, hb]⟩
    · intro fs vs hN h
      cases fs with
      | nil =>
        cases vs <;> simp [validFields] at h
        exact ⟨[], by simp [encodeFields]⟩
      | cons f fs =>
        obtain ⟨n, l⟩ := f
        cases vs with
        | nil => simp [validFields] at h
        | cons p vs =>
          obtain ⟨m, v⟩ := p
          simp [validFields] at h
          obtain ⟨⟨hnm, hv⟩, hfs⟩ := h
          subst hnm
          have hltv : sizeOf v < N := by simp at hN; omega
          have hlts : sizeOf vs < N := by simp at hN; omega
          obtain ⟨b1, hb1⟩ := (ih (sizeOf v) hltv).1 l v le_rfl hv
          obtain ⟨b2, hb2⟩ := (ih (sizeOf vs) hlts).2.1 fs vs le_rfl hfs
          exact ⟨b1 ++ b2, by simp [encodeFields, hb1, hb2]⟩
    · intro l vs hN h
      cases vs with
      | nil => exact ⟨[], by simp [encodeElems]⟩
      | cons v vs =>
        simp [validElems] at h
        obtain ⟨hv, hvs⟩ := h
        have hltv : sizeOf v < N := by simp at hN; omega
        have hlts : sizeOf vs < N := by simp at hN; omega
        obtain ⟨b1, hb1⟩ := (ih (sizeOf v) hltv).1 l v le_rfl hv
        obtain ⟨b2, hb2⟩ := (ih (sizeOf vs) hlts).2.2 l vs le_rfl hvs
        exact ⟨b1 ++ b2, by simp [encodeElems, hb1, hb2]⟩

/-- The encoder succeeds on every value valid under its layout. -/
theorem valid_encode (l : Layout) (v : Value) (h : valid l v = true) :
    ∃ bs, encode l v = some bs :=
  (valid_encode_aux (sizeOf v)).1 l v le_rfl h

/-- Successful run of the builder body: when the params record encodes to
`bs` and `bs` fits the scratch, the result is the instruction with the
template metas, the requested program and payload `1 :: bs`. -/
theorem AddLiquidityCore_ok (scratch : List Nat) (pl : Layout)
    (args : AddLiquidityArgs) (accounts : AddLiquidityAccounts)
    (pid : PublicKey) (bs : List Nat)
    (h : encode (layout pl) (Value.struct [("params", args.params)]) = some bs)
    (hfit : bs.length ≤ scratch.length) :
    AddLiquidityCore scratch pl args accounts pid =
      .ok { keys := addLiquidityKeys accounts, programId := pid, data := 1 :: bs } := by
  have hdata : ((1 : Nat) :: (bs ++ scratch.drop bs.length)).take (1 + bs.length)
      = 1 :: bs := by
    rw [Nat.add_comm 1 bs.length, List.take_succ_cons, List.take_left]
  simp only [AddLiquidityCore, bufferEncode, h, List.singleton_append]
  rw [if_pos hfit]
  simp only [hdata]

/-- Failing run of the builder body on a value the schema rejects. -/
theorem AddLiquidityCore_err_enc (scratch : List Nat) (pl : Layout)
    (args : AddLiquidityArgs) (accounts : AddLiquidityAccounts) (pid : PublicKey)
    (h : encode (layout pl) (Value.struct [("params", args.params)]) = Option.none) :
    AddLiquidityCore scratch pl args accounts pid = .error "EncodingError" := by
  simp only [AddLiquidityCore, bufferEncode, h]

/-- Failing run of the builder body on an encoding larger than the
scratch buffer. -/
theorem AddLiquidityCore_err_range (scratch : List Nat) (pl : Layout)
    (args : AddLiquidityArgs) (accounts : AddLiquidityAccounts)
    (pid : PublicKey) (bs : List Nat)
    (h : encode (layout pl) (Value.struct [("params", args.params)]) = some bs)
    (hbig : scratch.length < bs.length) :
    AddLiquidityCore scratch pl args accounts pid = .error "RangeError" := by
  simp only [AddLiquidityCore, bufferEncode, h]
  rw [if_neg (by omega)]

/-- Successful run of the public builder with its 1000-byte scratch. -/
theorem AddLiquidity_run (pl : Layout) (args : AddLiquidityArgs)
    (accounts : AddLiquidityAccounts) (pid : PublicKey) (bs : List Nat)
    (h : encode (layout pl) (Value.struct [("params", args.params)]) = some bs)
    (hfit : bs.length ≤ 1000) :
    AddLiquidity pl args accounts pid =
      .ok { keys := addLiquidityKeys accounts, programId := pid, data := 1 :: bs } := by
  unfold AddLiquidity
  exact AddLiquidityCore_ok _ _ _ _ _ _ h (by rw [List.length_replicate]; exact hfit)

/-- In any resolver run over a binding missing some declared role, the
result is a `MissingAccountError` naming a missing role. -/
theorem resolve_missing (template : List (String × Bool × Bool))
    (binding : String → Option PublicKey)
    (h : ∃ role ∈ template.map (fun t => t.1), binding role = Option.none) :
    ∃ role, role ∈ template.map (fun t => t.1) ∧ binding role = Option.none ∧
      resolve template binding = .error (missingAccountError role) := by
  induction template with
  | nil => simp at h
  | cons t rest ih =>
    obtain ⟨role0, s, w⟩ := t
    cases hb : binding role0 with
    | none =>
      exact ⟨role0, by simp, hb, by simp [resolve, hb]⟩
    | some pk =>
      obtain ⟨r, hr, hrn⟩ := h
      simp at hr
      have hr2 : r ∈ rest.map (fun t => t.1) := by
        rcases hr with hr | hr
        · exfalso
          rw [hr] at hrn
          rw [hrn] at hb
          exact Option.noConfusion hb
        · simpa using hr
      obtain ⟨r2, hr2m, hr2n, hres⟩ := ih ⟨r, hr2, hrn⟩
      exact ⟨r2, by simp [hr2m], hr2n, by simp [resolve, hb, hres]⟩

set_option maxRecDepth 8000 in
/-- On the complete binding drawn from a typed accounts record, the
resolver model returns exactly the meta list the builder constructs. -/
theorem resolve_bindingOf (accounts : AddLiquidityAccounts) :
    resolve addLiquidityTemplate (bindingOf accounts) =
      .ok (addLiquidityKeys accounts) := by
  rfl

/-- Shape of every successful builder run: some encoding exists, it fits
the 1000-byte scratch, and the instruction is fully determined. -/
theorem AddLiquidity_ok_shape (pl : Layout) (args : AddLiquidityArgs)
    (accounts : AddLiquidityAccounts) (pid : PublicKey)
    (ix : TransactionInstruction)
    (h : AddLiquidity pl args accounts pid = .ok ix) :
    ∃ bs, encode (layout pl) (Value.struct [("params", args.params)]) = some bs ∧
      bs.length ≤ 1000 ∧
      ix = { keys := addLiquidityKeys accounts, programId := pid,
             data := 1 :: bs } := by
  cases henc : encode (layout pl) (Value.struct [("params", args.params)]) with
  | none =>
    have herr := AddLiquidityCore_err_enc (List.replicate 1000 0) pl args accounts pid henc
    unfold AddLiquidity at h
    rw [herr] at h
    exact Except.noConfusion h
  | some bs =>
    by_cases hfit : bs.length ≤ 1000
    · have hrun := AddLiquidity_run pl args accounts pid bs henc hfit
      rw [hrun] at h
      injection h with h
      exact ⟨bs, rfl, hfit, h.symm⟩
    · have herr := AddLiquidityCore_err_range (List.replicate 1000 0) pl args
        accounts pid bs henc (by rw [List.length_replicate]; omega)
      unfold AddLiquidity at h
      rw [herr] at h
      exact Except.noConfusion h

/-- The sample params record encodes to the single byte 42 under the
one-byte schema. -/
theorem sample_encode :
    encode (layout (.uint 1)) (Value.struct [("params", sampleArgs.params)]) =
      some [42] := by
  simp [layout, sampleArgs, encode, encodeFields, encodeUIntLE]

/-- The oversize params record encodes to 1001 bytes. -/
theorem oversize_encode :
    encode (layout (.fixedBytes 1001)) (Value.struct [("params", oversizeArgs.params)]) =
      some (List.replicate 1001 7) := by
  have hall : (List.replicate 1001 7).all (fun x => decide (x < 256)) = true := by
    rw [List.all_eq_true]
    intro x hx
    rw [List.eq_of_mem_replicate hx]
    rfl
  have henc1 : encode (.fixedBytes 1001) (Value.bytes (List.replicate 1001 7)) =
      some (List.replicate 1001 7) := by
    simp only [encode]
    rw [if_pos ⟨List.length_replicate 1001 7, hall⟩]
  have hfs : encodeFields [("params", Layout.fixedBytes 1001)]
      [("params", Value.bytes (List.replicate 1001 7))] =
      some (List.replicate 1001 7) := by
    simp only [encodeFields, if_true]
    rw [henc1]
    simp only [Option.some_bind', Option.map_some', List.append_nil]
  simp only [layout, oversizeArgs, encode]
  exact hfs

/-- The sample builder run succeeds with payload `[1, 42]`. -/
theorem sample_run :
    AddLiquidity (.uint 1) sampleArgs sampleAccounts PROGRAM_ID =
      .ok { keys := addLiquidityKeys sampleAccounts, programId := PROGRAM_ID,
            data := [1, 42] } :=
  AddLiquidity_run (.uint 1) sampleArgs sampleAccounts PROGRAM_ID [42]
    sample_encode (by decide)

/-- C1: for every valid AddLiquidityArgs and AddLiquidityAccounts, the
data of the built instruction is exactly the one-byte discriminator `[1]`
concatenated with the borsh encoding of the params record, of total length
`1 + encodedLength`; no byte of the scratch buffer beyond the encoded
length reaches the output, whatever the scratch size. -/
theorem claim_C1_exact_payload (pl : Layout) (args : AddLiquidityArgs)
    (accounts : AddLiquidityAccounts) (pid : PublicKey) (bs : List Nat)
    (h : encode (layout pl) (Value.struct [("params", args.params)]) = some bs) :
    (∀ scratch : List Nat, bs.length ≤ scratch.length →
      AddLiquidityCore scratch pl args accounts pid =
        .ok { keys := addLiquidityKeys accounts, programId := pid,
              data := 1 :: bs }) ∧
    (1 :: bs).length = 1 + bs.length ∧
    (bs.length ≤ 1000 →
      AddLiquidity pl args accounts pid =
        .ok { keys := addLiquidityKeys accounts, programId := pid,
              data := 1 :: bs }) :=
  ⟨fun scratch hfit => AddLiquidityCore_ok scratch pl args accounts pid bs h hfit,
   by simp [Nat.add_comm],
   fun hfit => AddLiquidity_run pl args accounts pid bs h hfit⟩

/-- Witness for C1 at the sample inputs. -/
theorem claim_C1_witness :
    AddLiquidity (.uint 1) sampleArgs sampleAccounts PROGRAM_ID =
      .ok { keys := addLiquidityKeys sampleAccounts, programId := PROGRAM_ID,
            data := [1, 42] } :=
  (claim_C1_exact_payload (.uint 1) sampleArgs sampleAccounts PROGRAM_ID [42]
      sample_encode).2.2 (by decide)

/-- C2: for every parameter record valid under a TypeSchema, decoding the
bytes produced by encoding it yields the record again. -/
theorem claim_C2_round_trip (l : Layout) (v : Value) (h : valid l v = true) :
    ∃ bs, encode l v = some bs ∧ decode l bs = some (v, []) := by
  obtain ⟨bs, hbs⟩ := valid_encode l v h
  refine ⟨bs, hbs, ?_⟩
  simpa using encode_decode l v bs hbs []

/-- Witness for C2 at a concrete schema and record. -/
theorem claim_C2_witness :
    ∃ bs, encode sampleLayout sampleValue = some bs ∧
      decode sampleLayout bs = some (sampleValue, []) :=
  claim_C2_round_trip sampleLayout sampleValue
    (by simp [sampleLayout, sampleValue, valid, validFields])

/-- C3: the keys of every built instruction list the account metas in
template declaration order with the fixed signer/writable flags, for every
accounts record. -/
theorem claim_C3_account_order (pl : Layout) (args : AddLiquidityArgs)
    (accounts : AddLiquidityAccounts) (pid : PublicKey)
    (ix : TransactionInstruction)
    (h : AddLiquidity pl args accounts pid = .ok ix) :
    ix.keys =
      [ { pubkey := accounts.plasmaProgram, isSigner := false, isWritable := false },
        { pubkey := accounts.logAuthority, isSigner := false, isWritable := false },
        { pubkey := accounts.pool, isSigner := false, isWritable := true },
        { pubkey := accounts.trader, isSigner := true, isWritable := false },
        { pubkey := accounts.lpPosition, isSigner := false, isWritable := true },
        { pubkey := accounts.baseAccount, isSigner := false, isWritable := true },
        { pubkey := accounts.quoteAccount, isSigner := false, isWritable := true },
        { pubkey := accounts.baseVault, isSigner := false, isWritable := true },
        { pubkey := accounts.quoteVault, isSigner := false, isWritable := true },
        { pubkey := accounts.tokenProgram, isSigner := false, isWritable := false } ] := by
  obtain ⟨bs, _, _, hix⟩ := AddLiquidity_ok_shape pl args accounts pid ix h
  subst hix
  rfl

/-- Witness for C3 at the sample run. -/
theorem claim_C3_witness :
    ({ keys := addLiquidityKeys sampleAccounts, programId := PROGRAM_ID,
       data := [1, 42] } : TransactionInstruction).keys =
      [ { pubkey := sampleAccounts.plasmaProgram, isSigner := false, isWritable := false },
        { pubkey := sampleAccounts.logAuthority, isSigner := false, isWritable := false },
        { pubkey := sampleAccounts.pool, isSigner := false, isWritable := true },
        { pubkey := sampleAccounts.trader, isSigner := true, isWritable := false },
        { pubkey := sampleAccounts.lpPosition, isSigner := false, isWritable := true },
        { pubkey := sampleAccounts.baseAccount, isSigner := false, isWritable := true },
        { pubkey := sampleAccounts.quoteAccount, isSigner := false, isWritable := true },
        { pubkey := sampleAccounts.baseVault, isSigner := false, isWritable := true },
        { pubkey := sampleAccounts.quoteVault, isSigner := false, isWritable := true },
        { pubkey := sampleAccounts.tokenProgram, isSigner := false, isWritable := false } ] :=
  claim_C3_account_order (.uint 1) sampleArgs sampleAccounts PROGRAM_ID _ sample_run

/-- C4: on any binding missing a declared role, the resolver fails with a
MissingAccountError naming an absent role and never returns metas. -/
theorem claim_C4_missing_account (binding : String → Option PublicKey)
    (h : ∃ role ∈ addLiquidityTemplate.map (fun t => t.1),
      binding role = Option.none) :
    ∃ role, role ∈ addLiquidityTemplate.map (fun t => t.1) ∧
      binding role = Option.none ∧
      resolve addLiquidityTemplate binding = .error (missingAccountError role) ∧
      ∀ metas, resolve addLiquidityTemplate binding ≠ .ok metas := by
  obtain ⟨r, hm, hn, hres⟩ := resolve_missing addLiquidityTemplate binding h
  refine ⟨r, hm, hn, hres, fun metas hcontra => ?_⟩
  rw [hres] at hcontra
  exact Except.noConfusion hcontra

/-- Witness for C4 at a binding missing quoteVault. -/
theorem claim_C4_witness :
    ∃ role, role ∈ addLiquidityTemplate.map (fun t => t.1) ∧
      missingBinding role = Option.none ∧
      resolve addLiquidityTemplate missingBinding =
        .error (missingAccountError role) ∧
      ∀ metas, resolve addLiquidityTemplate missingBinding ≠ .ok metas :=
  claim_C4_missing_account missingBinding
    ⟨"quoteVault", by simp [addLiquidityTemplate], rfl⟩

/-- C5: encoding is atomic — every builder call either fails with an error
and yields no instruction, or returns a complete instruction whose payload
is the discriminator followed by the whole exact-length encoding. -/
theorem claim_C5_atomic (pl : Layout) (args : AddLiquidityArgs)
    (accounts : AddLiquidityAccounts) (pid : PublicKey) :
    (∃ e, AddLiquidity pl args accounts pid = .error e ∧
      ∀ ix, AddLiquidity pl args accounts pid ≠ .ok ix) ∨
    (∃ ix bs, AddLiquidity pl args accounts pid = .ok ix ∧
      encode (layout pl) (Value.struct [("params", args.params)]) = some bs ∧
      ix.data = 1 :: bs ∧ ix.data.length = 1 + bs.length ∧
      ix.keys = addLiquidityKeys accounts ∧ ix.programId = pid) := by
  cases henc : encode (layout pl) (Value.struct [("params", args.params)]) with
  | none =>
    left
    have hrun : AddLiquidity pl args accounts pid = .error "EncodingError" := by
      unfold AddLiquidity
      exact AddLiquidityCore_err_enc _ _ _ _ _ henc
    exact ⟨_, hrun, fun ix hc => by rw [hrun] at hc; exact Except.noConfusion hc⟩
  | some bs =>
    by_cases hfit : bs.length ≤ 1000
    · right
      have hrun := AddLiquidity_run pl args accounts pid bs henc hfit
      refine ⟨_, bs, hrun, rfl, rfl, ?_, rfl, rfl⟩
      simp [Nat.add_comm]
    · left
      have hrun : AddLiquidity pl args accounts pid = .error "RangeError" := by
        unfold AddLiquidity
        exact AddLiquidityCore_err_range _ _ _ _ _ bs henc
          (by rw [List.length_replicate]; omega)
      exact ⟨_, hrun, fun ix hc => by rw [hrun] at hc; exact Except.noConfusion hc⟩

/-- Witness for C5 at the sample inputs. -/
theorem claim_C5_witness :
    (∃ e, AddLiquidity (.uint 1) sampleArgs sampleAccounts PROGRAM_ID = .error e ∧
      ∀ ix, AddLiquidity (.uint 1) sampleArgs sampleAccounts PROGRAM_ID ≠ .ok ix) ∨
    (∃ ix bs, AddLiquidity (.uint 1) sampleArgs sampleAccounts PROGRAM_ID = .ok ix ∧
      encode (layout (.uint 1)) (Value.struct [("params", sampleArgs.params)]) = some bs ∧
      ix.data = 1 :: bs ∧ ix.data.length = 1 + bs.length ∧
      ix.keys = addLiquidityKeys sampleAccounts ∧ ix.programId = PROGRAM_ID) :=
  claim_C5_atomic (.uint 1) sampleArgs sampleAccounts PROGRAM_ID

/-- C6: the builder is a pure function of its inputs — equal args,
accounts and program address give equal instructions. -/
theorem claim_C6_pure (pl : Layout) (a1 a2 : AddLiquidityArgs)
    (acc1 acc2 : AddLiquidityAccounts) (p1 p2 : PublicKey)
    (ha : a1 = a2) (hacc : acc1 = acc2) (hp : p1 = p2) :
    AddLiquidity pl a1 acc1 p1 = AddLiquidity pl a2 acc2 p2 := by
  subst ha
  subst hacc
  subst hp
  rfl

/-- Witness for C6 at the sample inputs. -/
theorem claim_C6_witness :
    AddLiquidity (.uint 1) sampleArgs sampleAccounts PROGRAM_ID =
      AddLiquidity (.uint 1) sampleArgs sampleAccounts PROGRAM_ID :=
  claim_C6_pure (.uint 1) sampleArgs sampleArgs sampleAccounts sampleAccounts
    PROGRAM_ID PROGRAM_ID rfl rfl rfl

/-- C7: with the programId argument omitted the built instruction targets
PROGRAM_ID; with a supplied address it targets that address, all other
parts unchanged. -/
theorem claim_C7_program_id (pl : Layout) (args : AddLiquidityArgs)
    (accounts : AddLiquidityAccounts) (pid : PublicKey) :
    (∀ ix, AddLiquidity pl args accounts = .ok ix → ix.programId = PROGRAM_ID) ∧
    (∀ ix, AddLiquidity pl args accounts pid = .ok ix → ix.programId = pid) ∧
    AddLiquidity pl args accounts pid =
      Except.map (fun ix => { ix with programId := pid })
        (AddLiquidity pl args accounts) := by
  cases henc : encode (layout pl) (Value.struct [("params", args.params)]) with
  | none =>
    have h1 : ∀ q : PublicKey, AddLiquidity pl args accounts q = .error "EncodingError" := by
      intro q
      unfold AddLiquidity
      exact AddLiquidityCore_err_enc _ _ _ _ _ henc
    refine ⟨?_, ?_, ?_⟩
    · intro ix hc; rw [h1] at hc; exact Except.noConfusion hc
    · intro ix hc; rw [h1] at hc; exact Except.noConfusion hc
    · rw [h1, h1]; rfl
  | some bs =>
    by_cases hfit : bs.length ≤ 1000
    · have h1 : ∀ q : PublicKey, AddLiquidity pl args accounts q =
          .ok { keys := addLiquidityKeys accounts, programId := q, data := 1 :: bs } :=
        fun q => AddLiquidity_run pl args accounts q bs henc hfit
      refine ⟨?_, ?_, ?_⟩
      · intro ix hc; rw [h1] at hc; injection hc with hc; rw [← hc]
      · intro ix hc; rw [h1] at hc; injection hc with hc; rw [← hc]
      · rw [h1, h1]; rfl
    · have h1 : ∀ q : PublicKey, AddLiquidity pl args accounts q = .error "RangeError" := by
        intro q
        unfold AddLiquidity
        exact AddLiquidityCore_err_range _ _ _ _ _ bs henc
          (by rw [List.length_replicate]; omega)
      refine ⟨?_, ?_, ?_⟩
      · intro ix hc; rw [h1] at hc; exact Except.noConfusion hc
      · intro ix hc; rw [h1] at hc; exact Except.noConfusion hc
      · rw [h1, h1]; rfl

/-- Witness for C7 at the sample inputs and alternate address. -/
theorem claim_C7_witness :
    (∀ ix, AddLiquidity (.uint 1) sampleArgs sampleAccounts = .ok ix →
      ix.programId = PROGRAM_ID) ∧
    (∀ ix, AddLiquidity (.uint 1) sampleArgs sampleAccounts samplePid = .ok ix →
      ix.programId = samplePid) ∧
    AddLiquidity (.uint 1) sampleArgs sampleAccounts samplePid =
      Except.map (fun ix => { ix with programId := samplePid })
        (AddLiquidity (.uint 1) sampleArgs sampleAccounts) :=
  claim_C7_program_id (.uint 1) sampleArgs sampleAccounts samplePid

/-- C9: every built instruction carries exactly 10 account metas, with the
trader meta at position 3 as the only signer, and exactly six writable
metas. -/
theorem claim_C9_meta_flags (pl : Layout) (args : AddLiquidityArgs)
    (accounts : AddLiquidityAccounts) (pid : PublicKey)
    (ix : TransactionInstruction)
    (h : AddLiquidity pl args accounts pid = .ok ix) :
    ix.keys.length = 10 ∧
    ix.keys.map (fun m => m.isSigner) =
      [false, false, false, true, false, false, false, false, false, false] ∧
    ix.keys.map (fun m => m.isWritable) =
      [false, false, true, false, true, true, true, true, true, false] ∧
    ix.keys.get? 3 =
      some { pubkey := accounts.trader, isSigner := true, isWritable := false } ∧
    ix.keys.countP (fun m => m.isSigner) = 1 ∧
    ix.keys.countP (fun m => m.isWritable) = 6 := by
  obtain ⟨bs, _, _, hix⟩ := AddLiquidity_ok_shape pl args accounts pid ix h
  subst hix
  exact ⟨rfl, rfl, rfl, rfl, rfl, rfl⟩

/-- Witness for C9 at the sample run. -/
theorem claim_C9_witness :
    ({ keys := addLiquidityKeys sampleAccounts, programId := PROGRAM_ID,
       data := [1, 42] } : TransactionInstruction).keys.length = 10 ∧
    ({ keys := addLiquidityKeys sampleAccounts, programId := PROGRAM_ID,
       data := [1, 42] } : TransactionInstruction).keys.map (fun m => m.isSigner) =
      [false, false, false, true, false, false, false, false, false, false] ∧
    ({ keys := addLiquidityKeys sampleAccounts, programId := PROGRAM_ID,
       data := [1, 42] } : TransactionInstruction).keys.map (fun m => m.isWritable) =
      [false, false, true, false, true, true, true, true, true, false] ∧
    ({ keys := addLiquidityKeys sampleAccounts, programId := PROGRAM_ID,
       data := [1, 42] } : TransactionInstruction).keys.get? 3 =
      some { pubkey := sampleAccounts.trader, isSigner := true, isWritable := false } ∧
    ({ keys := addLiquidityKeys sampleAccounts, programId := PROGRAM_ID,
       data := [1, 42] } : TransactionInstruction).keys.countP (fun m => m.isSigner) = 1 ∧
    ({ keys := addLiquidityKeys sampleAccounts, programId := PROGRAM_ID,
       data := [1, 42] } : TransactionInstruction).keys.countP (fun m => m.isWritable) = 6 :=
  claim_C9_meta_flags (.uint 1) sampleArgs sampleAccounts PROGRAM_ID _ sample_run

/-- C10: when the encoded params fit in the 1000-byte scratch, the builder
succeeds with the full payload; when they exceed it, the builder fails
with RangeError instead of truncating. -/
theorem claim_C10_scratch_bound (pl : Layout) (args : AddLiquidityArgs)
    (accounts : AddLiquidityAccounts) (pid : PublicKey) (bs : List Nat)
    (h : encode (layout pl) (Value.struct [("params", args.params)]) = some bs) :
    (bs.length ≤ 1000 →
      AddLiquidity pl args accounts pid =
        .ok { keys := addLiquidityKeys accounts, programId := pid,
              data := 1 :: bs }) ∧
    (1000 < bs.length →
      AddLiquidity pl args accounts pid = .error "RangeError") :=
  ⟨fun hfit => AddLiquidity_run pl args accounts pid bs h hfit,
   fun hbig => by
    unfold AddLiquidity
    exact AddLiquidityCore_err_range _ _ _ _ _ bs h
      (by rw [List.length_replicate]; omega)⟩

/-- Witness for C10: a fitting run succeeds, an oversize run fails. -/
theorem claim_C10_witness :
    AddLiquidity (.uint 1) sampleArgs sampleAccounts samplePid =
      .ok { keys := addLiquidityKeys sampleAccounts, programId := samplePid,
            data := [1, 42] } ∧
    AddLiquidity (.fixedBytes 1001) oversizeArgs sampleAccounts samplePid =
      .error "RangeError" :=
  ⟨(claim_C10_scratch_bound (.uint 1) sampleArgs sampleAccounts samplePid [42]
      sample_encode).1 (by decide),
   (claim_C10_scratch_bound (.fixedBytes 1001) oversizeArgs sampleAccounts samplePid
      (List.replicate 1001 7) oversize_encode).2
      (by rw [List.length_replicate]; omega)⟩

end Plasma
